import Mathlib

/-!
Verification of the maricraft voxel-block renderer core.

The development shallowly embeds the two source files:
* `mesh.rs` — the procedural cube-mesh generator (`block_uv`, `new_block`);
* `main.rs` — the bootstrap state machine (`GameState`, `loading`, `finalize`)
  and the block interaction handlers (`spawn_block`, `on_pointer_over`,
  `on_pointer_out`, `on_pointer_click`).

The mesh generator works in `f32`. The one lossy step is the integer
conversion `index as f32` in `block_uv`: a `u32` above `2 ^ 24` rounds to the
nearest representable binary32 value (ties to even), so distinct indices can
convert to the same float. The embedding models that conversion explicitly
(`u32ToF32`) and carries the result in `ℚ`; every subsequent operation the
generator performs on such values (division by the power of two 16, addition
of 1, the constant ±0.5 coordinates) is exact in binary32, so modelling them
by exact rational arithmetic is faithful.
-/

namespace Maricraft

/-- A 2-component vector of exact coordinates, standing for bevy's `Vec2`. -/
structure Vec2Q where
  x : ℚ
  y : ℚ
deriving DecidableEq, Repr

/-- A 3-component vector of exact coordinates, standing for bevy's `Vec3`. -/
structure Vec3Q where
  x : ℚ
  y : ℚ
  z : ℚ
deriving DecidableEq, Repr

/-- Componentwise vector addition (bevy `Vec3` `+`). -/
def Vec3Q.add (a b : Vec3Q) : Vec3Q :=
  ⟨a.x + b.x, a.y + b.y, a.z + b.z⟩

/-- Bevy's `Vec3::Y`, the unit vector along +Y. -/
def vecY : Vec3Q := ⟨0, 1, 0⟩

/-- The `const TEXTURE_SIZE: f32 = 16.0` constant from `mesh.rs`. -/
def TEXTURE_SIZE : ℚ := 16

/-- Floor logarithm base 2 by fuel (32 halvings cover every `u32`). -/
def log2fuel : ℕ → ℕ → ℕ
  | 0, _ => 0
  | fuel + 1, n => if n < 2 then 0 else log2fuel fuel (n / 2) + 1

/-- The value of Rust's `index as f32` on a `u32`, as a natural number: below
`2 ^ 24` the conversion is exact; above, the value rounds to the nearest
multiple of its binade's ulp `2 ^ (log2 n - 23)`, ties to the even multiple
(IEEE round-to-nearest-even; no `u32` overflows the `f32` exponent range). -/
def u32ToF32 (n : ℕ) : ℕ :=
  if n < 2 ^ 24 then n
  else
    let e := log2fuel 32 n
    let ulp := 2 ^ (e - 23)
    let q := n / ulp
    let r := n % ulp
    if 2 * r < ulp then q * ulp
    else if ulp < 2 * r then (q + 1) * ulp
    else if q % 2 = 0 then q * ulp
    else (q + 1) * ulp

/-- Below `2 ^ 24` the `u32` to `f32` conversion is the identity. -/
theorem u32ToF32_small {n : ℕ} (h : n < 2 ^ 24) : u32ToF32 n = n := by
  unfold u32ToF32
  rw [if_pos h]

/-- Embedding of `block_uv` from `mesh.rs`: `position = index as f32 * Vec2::X`
(the conversion modelled by `u32ToF32`), `min = position / TEXTURE_SIZE`,
`max = (position + Vec2::ONE) / TEXTURE_SIZE`. -/
def block_uv (index : ℕ) : Vec2Q × Vec2Q :=
  let position : Vec2Q := ⟨(u32ToF32 index : ℚ), 0⟩
  let min : Vec2Q := ⟨position.x / TEXTURE_SIZE, position.y / TEXTURE_SIZE⟩
  let max : Vec2Q := ⟨(position.x + 1) / TEXTURE_SIZE, (position.y + 1) / TEXTURE_SIZE⟩
  (min, max)

/-- The attribute buffers of the mesh returned by `new_block` (positions,
normals, UV coordinates, triangle indices of a `TriangleList`). -/
structure MeshQ where
  positions : List Vec3Q
  normals : List Vec3Q
  uvs : List Vec2Q
  indices : List ℕ
deriving DecidableEq, Repr

/-- The 24-entry `vertices` table of `new_block` in `mesh.rs`:
four `(position, normal, uv)` triples per face, faces in source order
front, back, right, left, top, bottom. -/
def blockVertices (front back right left top bottom : ℕ) :
    List (Vec3Q × Vec3Q × Vec2Q) :=
  let fuv := block_uv front
  let buv := block_uv back
  let ruv := block_uv right
  let luv := block_uv left
  let tuv := block_uv top
  let ouv := block_uv bottom
  let front_min := fuv.1
  let front_max := fuv.2
  let back_min := buv.1
  let back_max := buv.2
  let right_min := ruv.1
  let right_max := ruv.2
  let left_min := luv.1
  let left_max := luv.2
  let top_min := tuv.1
  let top_max := tuv.2
  let bottom_min := ouv.1
  let bottom_max := ouv.2
  let min : ℚ := -(1/2)
  let max : ℚ := 1/2
  [ -- Front
    (⟨min, min, max⟩, ⟨0, 0, 1⟩, ⟨front_min.x, front_max.y⟩),
    (⟨max, min, max⟩, ⟨0, 0, 1⟩, ⟨front_max.x, front_max.y⟩),
    (⟨max, max, max⟩, ⟨0, 0, 1⟩, ⟨front_max.x, front_min.y⟩),
    (⟨min, max, max⟩, ⟨0, 0, 1⟩, ⟨front_min.x, front_min.y⟩),
    -- Back
    (⟨min, max, min⟩, ⟨0, 0, -1⟩, ⟨back_max.x, back_min.y⟩),
    (⟨max, max, min⟩, ⟨0, 0, -1⟩, ⟨back_min.x, back_min.y⟩),
    (⟨max, min, min⟩, ⟨0, 0, -1⟩, ⟨back_min.x, back_max.y⟩),
    (⟨min, min, min⟩, ⟨0, 0, -1⟩, ⟨back_max.x, back_max.y⟩),
    -- Right
    (⟨max, min, min⟩, ⟨1, 0, 0⟩, ⟨right_max.x, right_max.y⟩),
    (⟨max, max, min⟩, ⟨1, 0, 0⟩, ⟨right_max.x, right_min.y⟩),
    (⟨max, max, max⟩, ⟨1, 0, 0⟩, ⟨right_min.x, right_min.y⟩),
    (⟨max, min, max⟩, ⟨1, 0, 0⟩, ⟨right_min.x, right_max.y⟩),
    -- Left
    (⟨min, min, max⟩, ⟨-1, 0, 0⟩, ⟨left_max.x, left_max.y⟩),
    (⟨min, max, max⟩, ⟨-1, 0, 0⟩, ⟨left_max.x, left_min.y⟩),
    (⟨min, max, min⟩, ⟨-1, 0, 0⟩, ⟨left_min.x, left_min.y⟩),
    (⟨min, min, min⟩, ⟨-1, 0, 0⟩, ⟨left_min.x, left_max.y⟩),
    -- Top
    (⟨max, max, min⟩, ⟨0, 1, 0⟩, ⟨top_max.x, top_min.y⟩),
    (⟨min, max, min⟩, ⟨0, 1, 0⟩, ⟨top_min.x, top_min.y⟩),
    (⟨min, max, max⟩, ⟨0, 1, 0⟩, ⟨top_min.x, top_max.y⟩),
    (⟨max, max, max⟩, ⟨0, 1, 0⟩, ⟨top_max.x, top_max.y⟩),
    -- Bottom
    (⟨max, min, max⟩, ⟨0, -1, 0⟩, ⟨bottom_max.x, bottom_max.y⟩),
    (⟨min, min, max⟩, ⟨0, -1, 0⟩, ⟨bottom_max.x, bottom_min.y⟩),
    (⟨min, min, min⟩, ⟨0, -1, 0⟩, ⟨bottom_min.x, bottom_min.y⟩),
    (⟨max, min, min⟩, ⟨0, -1, 0⟩, ⟨bottom_min.x, bottom_max.y⟩) ]

/-- Embedding of `new_block` from `mesh.rs`: projects the vertex table into
the position/normal/uv buffers and attaches the fixed index buffer. -/
def new_block (front back right left top bottom : ℕ) : MeshQ :=
  let vertices := blockVertices front back right left top bottom
  { positions := vertices.map (fun v => v.1)
    normals := vertices.map (fun v => v.2.1)
    uvs := vertices.map (fun v => v.2.2)
    indices :=
      [ 0, 1, 2, 2, 3, 0, -- Front
        4, 5, 6, 6, 7, 4, -- Back
        8, 9, 10, 10, 11, 8, -- Right
        12, 13, 14, 14, 15, 12, -- Left
        16, 17, 18, 18, 19, 16, -- Top
        20, 21, 22, 22, 23, 20 ] } -- Bottom

/-- The six outward face normals in source face order
(front +Z, back -Z, right +X, left -X, top +Y, bottom -Y). -/
def faceNormals : List Vec3Q :=
  [⟨0, 0, 1⟩, ⟨0, 0, -1⟩, ⟨1, 0, 0⟩, ⟨-1, 0, 0⟩, ⟨0, 1, 0⟩, ⟨0, -1, 0⟩]

/-- The normal buffer the spec describes: each face's outward normal
repeated once per face vertex. -/
def expectedNormals : List Vec3Q :=
  faceNormals.flatMap (fun n => [n, n, n, n])

/-- The index buffer the spec describes: the quad pattern `[0,1,2,2,3,0]`
offset by `4 * face` for faces `0..5`. -/
def expectedIndices : List ℕ :=
  (List.range 6).flatMap (fun face => [0, 1, 2, 2, 3, 0].map (fun k => k + 4 * face))

/-- Squared Euclidean norm of a `Vec3Q`. -/
def Vec3Q.normSq (v : Vec3Q) : ℚ :=
  v.x * v.x + v.y * v.y + v.z * v.z

/-- C1: for every 6-tuple of face tile indices, `new_block` outputs exactly 24
vertex positions, a normal buffer equal to the six axis-aligned outward unit
face directions (+Z front, -Z back, +X right, -X left, +Y top, -Y bottom) each
repeated four times, every normal of unit length, 24 UV pairs, and an index
buffer equal to the per-face pattern `[0,1,2,2,3,0]` offset by 4 times the
face number. -/
theorem new_block_shape (front back right left top bottom : ℕ) :
    (new_block front back right left top bottom).positions.length = 24 ∧
    (new_block front back right left top bottom).normals = expectedNormals ∧
    (∀ n ∈ (new_block front back right left top bottom).normals, n.normSq = 1) ∧
    (new_block front back right left top bottom).uvs.length = 24 ∧
    (new_block front back right left top bottom).indices = expectedIndices := by
  refine ⟨rfl, rfl, ?_, rfl, rfl⟩
  intro n hn
  have h24 : n ∈ expectedNormals := hn
  fin_cases h24 <;> norm_num [Vec3Q.normSq]

/-- C1 witness: the theorem instantiated at the all-zero tuple, with the
membership hypothesis discharged at the first normal. -/
theorem new_block_shape_witness :
    (new_block 0 0 0 0 0 0).positions.length = 24 ∧
    (⟨0, 0, 1⟩ : Vec3Q) ∈ (new_block 0 0 0 0 0 0).normals ∧
    (⟨(0 : ℚ), 0, 1⟩ : Vec3Q).normSq = 1 :=
  ⟨(new_block_shape 0 0 0 0 0 0).1, by decide,
    (new_block_shape 0 0 0 0 0 0).2.2.1 ⟨0, 0, 1⟩ (by decide)⟩

/-- C2: for a tile index `i < 16`, `block_uv i` is the rectangle with minimum
corner `(i/16, 0)` and maximum corner `((i+1)/16, 1/16)`. -/
theorem block_uv_eq (i : ℕ) (h : i < 16) :
    block_uv i = (⟨(i : ℚ) / 16, 0⟩, ⟨((i : ℚ) + 1) / 16, 1 / 16⟩) := by
  have h24 : i < 2 ^ 24 := lt_trans h (by norm_num)
  simp [block_uv, TEXTURE_SIZE, u32ToF32_small h24]

/-- C2 witness: the theorem instantiated at tile index 3. -/
theorem block_uv_eq_witness :
    3 < 16 ∧ block_uv 3 = (⟨(3 : ℚ) / 16, 0⟩, ⟨((3 : ℚ) + 1) / 16, 1 / 16⟩) :=
  ⟨by decide, block_uv_eq 3 (by decide)⟩

/-- C10: `new_block` is total over all `u32` 6-tuples, always emitting a
36-entry index buffer whose every entry references one of the 24 vertices. -/
theorem new_block_indices_in_range (front back right left top bottom : ℕ) :
    (new_block front back right left top bottom).indices.length = 36 ∧
    ((new_block front back right left top bottom).indices.all
      (fun j => decide (j < 24))) = true :=
  ⟨rfl, rfl⟩

/-- Division by the nonzero constant 16 is injective on cast naturals. -/
theorem cast_div16_inj {a b : ℕ} (h : (a : ℚ) / 16 = (b : ℚ) / 16) : a = b := by
  have h16 : (16 : ℚ) ≠ 0 := by norm_num
  have hab : (a : ℚ) = (b : ℚ) := (div_left_inj' h16).mp h
  exact_mod_cast hab

/-- Adding one then dividing by 16 is injective on cast naturals. -/
theorem cast_add_one_div16_inj {a b : ℕ}
    (h : ((a : ℚ) + 1) / 16 = ((b : ℚ) + 1) / 16) : a = b := by
  have h16 : (16 : ℚ) ≠ 0 := by norm_num
  have hab : (a : ℚ) + 1 = (b : ℚ) + 1 := (div_left_inj' h16).mp h
  have hab2 : (a : ℚ) = (b : ℚ) := by linarith
  exact_mod_cast hab2

/-- The 24 vertex positions of the cube, a constant: positions do not depend
on any tile index. -/
def blockPositions : List Vec3Q :=
  let min : ℚ := -(1/2)
  let max : ℚ := 1/2
  [ ⟨min, min, max⟩, ⟨max, min, max⟩, ⟨max, max, max⟩, ⟨min, max, max⟩,
    ⟨min, max, min⟩, ⟨max, max, min⟩, ⟨max, min, min⟩, ⟨min, min, min⟩,
    ⟨max, min, min⟩, ⟨max, max, min⟩, ⟨max, max, max⟩, ⟨max, min, max⟩,
    ⟨min, min, max⟩, ⟨min, max, max⟩, ⟨min, max, min⟩, ⟨min, min, min⟩,
    ⟨max, max, min⟩, ⟨min, max, min⟩, ⟨min, max, max⟩, ⟨max, max, max⟩,
    ⟨max, min, max⟩, ⟨min, min, max⟩, ⟨min, min, min⟩, ⟨max, min, min⟩ ]

/-- The first 16 UV pairs (front, back, right, left faces): they depend only
on those four tile indices. -/
def sideFaceUVs (front back right left : ℕ) : List Vec2Q :=
  let fuv := block_uv front
  let buv := block_uv back
  let ruv := block_uv right
  let luv := block_uv left
  [ ⟨fuv.1.x, fuv.2.y⟩, ⟨fuv.2.x, fuv.2.y⟩, ⟨fuv.2.x, fuv.1.y⟩, ⟨fuv.1.x, fuv.1.y⟩,
    ⟨buv.2.x, buv.1.y⟩, ⟨buv.1.x, buv.1.y⟩, ⟨buv.1.x, buv.2.y⟩, ⟨buv.2.x, buv.2.y⟩,
    ⟨ruv.2.x, ruv.2.y⟩, ⟨ruv.2.x, ruv.1.y⟩, ⟨ruv.1.x, ruv.1.y⟩, ⟨ruv.1.x, ruv.2.y⟩,
    ⟨luv.2.x, luv.2.y⟩, ⟨luv.2.x, luv.1.y⟩, ⟨luv.1.x, luv.1.y⟩, ⟨luv.1.x, luv.2.y⟩ ]

/-- The last 4 UV pairs (bottom face): they depend only on the bottom tile. -/
def bottomFaceUVs (bottom : ℕ) : List Vec2Q :=
  let ouv := block_uv bottom
  [ ⟨ouv.2.x, ouv.2.y⟩, ⟨ouv.2.x, ouv.1.y⟩, ⟨ouv.1.x, ouv.1.y⟩, ⟨ouv.1.x, ouv.2.y⟩ ]

/-- The position buffer is the constant `blockPositions`. -/
theorem new_block_positions_eq (front back right left top bottom : ℕ) :
    (new_block front back right left top bottom).positions = blockPositions := rfl

/-- The normal buffer is the constant `expectedNormals`. -/
theorem new_block_normals_eq (front back right left top bottom : ℕ) :
    (new_block front back right left top bottom).normals = expectedNormals := rfl

/-- The index buffer is the constant `expectedIndices`. -/
theorem new_block_indices_eq (front back right left top bottom : ℕ) :
    (new_block front back right left top bottom).indices = expectedIndices := rfl

/-- The first 16 UV pairs do not depend on the top or bottom tile. -/
theorem new_block_uvs_take16_eq (front back right left top bottom : ℕ) :
    (new_block front back right left top bottom).uvs.take 16 =
      sideFaceUVs front back right left := rfl

/-- The last 4 UV pairs do not depend on the top tile. -/
theorem new_block_uvs_drop20_eq (front back right left top bottom : ℕ) :
    (new_block front back right left top bottom).uvs.drop 20 =
      bottomFaceUVs bottom := rfl

/-- C3 counterexample: the top tile indices `2 ^ 24 = 16777216` and
`16777217` are distinct `u32` values, but `index as f32` rounds both to
`16777216.0` (ties to even), so the two `new_block` calls return completely
identical meshes — in particular the top face's four UV pairs do not
differ. -/
theorem new_block_top_f32_rounding_collision :
    (16777216 : ℕ) ≠ 16777217 ∧
    u32ToF32 16777216 = u32ToF32 16777217 ∧
    new_block 0 0 0 0 16777216 0 = new_block 0 0 0 0 16777217 0 :=
  ⟨by decide, by decide, rfl⟩

/-- C3 amended: two `new_block` calls that differ only in the top tile index,
with both top indices below `2 ^ 24` (where the `u32` to `f32` conversion is
exact — in particular every valid atlas index), agree on all 24 positions,
all 24 normals, all 36 indices, and the UV pairs of the other five faces
(vertices 0..15 and 20..23), while each of the top face's four UV pairs
(vertices 16..19) differs. -/
theorem new_block_top_frame (front back right left t1 t2 bottom : ℕ)
    (h : t1 ≠ t2) (h1 : t1 < 2 ^ 24) (h2 : t2 < 2 ^ 24) :
    (new_block front back right left t1 bottom).positions =
      (new_block front back right left t2 bottom).positions ∧
    (new_block front back right left t1 bottom).normals =
      (new_block front back right left t2 bottom).normals ∧
    (new_block front back right left t1 bottom).indices =
      (new_block front back right left t2 bottom).indices ∧
    (new_block front back right left t1 bottom).uvs.take 16 =
      (new_block front back right left t2 bottom).uvs.take 16 ∧
    (new_block front back right left t1 bottom).uvs.drop 20 =
      (new_block front back right left t2 bottom).uvs.drop 20 ∧
    ∀ k, 16 ≤ k → k < 20 →
      (new_block front back right left t1 bottom).uvs.get? k ≠
        (new_block front back right left t2 bottom).uvs.get? k := by
  refine ⟨(new_block_positions_eq front back right left t1 bottom).trans
      (new_block_positions_eq front back right left t2 bottom).symm,
    (new_block_normals_eq front back right left t1 bottom).trans
      (new_block_normals_eq front back right left t2 bottom).symm,
    (new_block_indices_eq front back right left t1 bottom).trans
      (new_block_indices_eq front back right left t2 bottom).symm,
    (new_block_uvs_take16_eq front back right left t1 bottom).trans
      (new_block_uvs_take16_eq front back right left t2 bottom).symm,
    (new_block_uvs_drop20_eq front back right left t1 bottom).trans
      (new_block_uvs_drop20_eq front back right left t2 bottom).symm, ?_⟩
  intro k hk1 hk2
  interval_cases k
  · have e1 : (new_block front back right left t1 bottom).uvs.get? 16 =
        some ⟨((u32ToF32 t1 : ℚ) + 1) / 16, 0 / 16⟩ := rfl
    have e2 : (new_block front back right left t2 bottom).uvs.get? 16 =
        some ⟨((u32ToF32 t2 : ℚ) + 1) / 16, 0 / 16⟩ := rfl
    rw [e1, e2, u32ToF32_small h1, u32ToF32_small h2]
    intro hc
    simp only [Option.some.injEq, Vec2Q.mk.injEq] at hc
    exact h (cast_add_one_div16_inj hc.1)
  · have e1 : (new_block front back right left t1 bottom).uvs.get? 17 =
        some ⟨(u32ToF32 t1 : ℚ) / 16, 0 / 16⟩ := rfl
    have e2 : (new_block front back right left t2 bottom).uvs.get? 17 =
        some ⟨(u32ToF32 t2 : ℚ) / 16, 0 / 16⟩ := rfl
    rw [e1, e2, u32ToF32_small h1, u32ToF32_small h2]
    intro hc
    simp only [Option.some.injEq, Vec2Q.mk.injEq] at hc
    exact h (cast_div16_inj hc.1)
  · have e1 : (new_block front back right left t1 bottom).uvs.get? 18 =
        some ⟨(u32ToF32 t1 : ℚ) / 16, (0 + 1) / 16⟩ := rfl
    have e2 : (new_block front back right left t2 bottom).uvs.get? 18 =
        some ⟨(u32ToF32 t2 : ℚ) / 16, (0 + 1) / 16⟩ := rfl
    rw [e1, e2, u32ToF32_small h1, u32ToF32_small h2]
    intro hc
    simp only [Option.some.injEq, Vec2Q.mk.injEq] at hc
    exact h (cast_div16_inj hc.1)
  · have e1 : (new_block front back right left t1 bottom).uvs.get? 19 =
        some ⟨((u32ToF32 t1 : ℚ) + 1) / 16, (0 + 1) / 16⟩ := rfl
    have e2 : (new_block front back right left t2 bottom).uvs.get? 19 =
        some ⟨((u32ToF32 t2 : ℚ) + 1) / 16, (0 + 1) / 16⟩ := rfl
    rw [e1, e2, u32ToF32_small h1, u32ToF32_small h2]
    intro hc
    simp only [Option.some.injEq, Vec2Q.mk.injEq] at hc
    exact h (cast_add_one_div16_inj hc.1)

/-- C3 amended witness: top indices 1 and 2 (both far below `2 ^ 24`),
checked at top-face vertex 16. -/
theorem new_block_top_frame_witness :
    (1 : ℕ) ≠ 2 ∧ (1 : ℕ) < 2 ^ 24 ∧ (2 : ℕ) < 2 ^ 24 ∧
    (new_block 0 0 0 0 1 0).positions = (new_block 0 0 0 0 2 0).positions ∧
    (new_block 0 0 0 0 1 0).uvs.get? 16 ≠ (new_block 0 0 0 0 2 0).uvs.get? 16 :=
  ⟨by decide, by decide, by decide,
    (new_block_top_frame 0 0 0 0 1 2 0 (by decide) (by decide) (by decide)).1,
    (new_block_top_frame 0 0 0 0 1 2 0 (by decide) (by decide)
      (by decide)).2.2.2.2.2 16 (by decide) (by decide)⟩

/-- C6 counterexample: calling the mesh generator with the out-of-range face
index 16 does not fail — there is no `InvalidFaceIndex` error path in the code;
`new_block 16 0 0 0 0 0` still produces a complete mesh (24 positions, 36
indices) whose front tile rectangle merely extends past the atlas (max U is
17/16 > 1). -/
theorem out_of_range_index_still_builds_mesh :
    (new_block 16 0 0 0 0 0).positions.length = 24 ∧
    (new_block 16 0 0 0 0 0).indices.length = 36 ∧
    (block_uv 16).2.x = 17 / 16 ∧
    1 < (block_uv 16).2.x := by
  have h16 : u32ToF32 16 = 16 := u32ToF32_small (by norm_num)
  refine ⟨rfl, rfl, by norm_num [block_uv, TEXTURE_SIZE, h16], ?_⟩
  norm_num [block_uv, TEXTURE_SIZE, h16]

/-- C6 amended: a face tile index outside `[0,16)` is not rejected: mesh
generation is total and still returns a full 24-vertex, 36-index mesh. -/
theorem new_block_total_out_of_range (front back right left top bottom : ℕ)
    (h : 16 ≤ front ∨ 16 ≤ back ∨ 16 ≤ right ∨ 16 ≤ left ∨
      16 ≤ top ∨ 16 ≤ bottom) :
    (new_block front back right left top bottom).positions.length = 24 ∧
    (new_block front back right left top bottom).normals.length = 24 ∧
    (new_block front back right left top bottom).uvs.length = 24 ∧
    (new_block front back right left top bottom).indices.length = 36 :=
  ⟨rfl, rfl, rfl, rfl⟩

/-- C6 amended witness: the amended theorem at the tuple `(16,0,0,0,0,0)`. -/
theorem new_block_total_out_of_range_witness :
    (16 ≤ 16 ∨ 16 ≤ 0 ∨ 16 ≤ 0 ∨ 16 ≤ 0 ∨ 16 ≤ 0 ∨ 16 ≤ 0) ∧
    (new_block 16 0 0 0 0 0).positions.length = 24 ∧
    (new_block 16 0 0 0 0 0).normals.length = 24 ∧
    (new_block 16 0 0 0 0 0).uvs.length = 24 ∧
    (new_block 16 0 0 0 0 0).indices.length = 36 :=
  ⟨by decide, new_block_total_out_of_range 16 0 0 0 0 0 (by decide)⟩

/-! ## Block interaction model (`main.rs`)

`main.rs` spawns block entities into bevy's entity hierarchy. The hierarchy is
a forest; it is embedded as a first-order forest where
`SceneForest.cons eid block children rest` is the entity `eid` carrying an
optional `Block` payload (`Block` marker + `Transform` + mesh and material
handles), its child forest, and the remaining sibling forest. -/

/-- The components of a spawned block entity that the click handler touches:
its `Transform` translation and its `Mesh3d` / `MeshMaterial3d` handles. -/
structure BlockData where
  position : Vec3Q
  meshHandle : ℕ
  materialHandle : ℕ
deriving DecidableEq, Repr

/-- The entity hierarchy as a forest encoded head/children/siblings. -/
inductive SceneForest : Type where
  | nil : SceneForest
  | cons (eid : ℕ) (block : Option BlockData) (children : SceneForest)
      (rest : SceneForest) : SceneForest
deriving DecidableEq, Repr

/-- All entity ids of a forest, in depth-first order. -/
def forestIds : SceneForest → List ℕ
  | .nil => []
  | .cons eid _ children rest => eid :: (forestIds children ++ forestIds rest)

/-- Append a forest at top level (a `commands.spawn` adds a new root entity). -/
def forestAppend : SceneForest → SceneForest → SceneForest
  | .nil, g => g
  | .cons eid b children rest, g => .cons eid b children (forestAppend rest g)

/-- Lookup `query.get(entity)` for `Query<&Transform, With<Block>>`: the block
payload of the entity `target`, if it exists. -/
def findBlock (target : ℕ) : SceneForest → Option BlockData
  | .nil => none
  | .cons eid b children rest =>
      if eid = target then b
      else
        match findBlock target children with
        | some bd => some bd
        | none => findBlock target rest

/-- Embedding of `commands.entity(target).despawn_recursive()`: remove the entity `target`
together with its whole subtree, wherever it sits in the forest. -/
def despawnRecursive (target : ℕ) : SceneForest → SceneForest
  | .nil => .nil
  | .cons eid b children rest =>
      if eid = target then despawnRecursive target rest
      else .cons eid b (despawnRecursive target children) (despawnRecursive target rest)

/-- The ids of the subtree rooted at the entity `target` (the ids
`despawn_recursive` is supposed to delete). -/
def subtreeIds (target : ℕ) : SceneForest → List ℕ
  | .nil => []
  | .cons eid _ children rest =>
      if eid = target then (eid :: forestIds children) ++ subtreeIds target rest
      else subtreeIds target children ++ subtreeIds target rest

/-- The `State` resource of `main.rs`: the shared block-mesh handle and the
shared material handle published by `finalize` (handles modelled as asset
ids). -/
structure State where
  block : ℕ
  material : ℕ
deriving DecidableEq, Repr

/-- The world as the click handler sees it: the entity forest, the next fresh
entity id, and the number of allocated mesh and material assets. -/
structure WorldM where
  scene : SceneForest
  nextId : ℕ
  meshAssets : ℕ
  materialAssets : ℕ
deriving DecidableEq, Repr

/-- The `PointerButton` value of the picking subsystem. -/
inductive PointerButton : Type where
  | Primary : PointerButton
  | Secondary : PointerButton
  | Middle : PointerButton
deriving DecidableEq, Repr

/-- A `Trigger<Pointer<Click>>` delivery: the targeted entity, the button, and
the hit's surface normal (carried by the event, ignored by the handler). -/
structure ClickEvent where
  target : ℕ
  button : PointerButton
  hitNormal : Option Vec3Q
deriving DecidableEq, Repr

/-- Embedding of `spawn_block` from `main.rs`: spawn one new root entity with
the `Block` payload at `position`, holding clones of the `State` resource's
mesh and material handles; no asset collection is touched. -/
def spawn_block (w : WorldM) (st : State) (position : Vec3Q) : WorldM :=
  { w with
    scene := forestAppend w.scene
      (.cons w.nextId (some ⟨position, st.block, st.material⟩) .nil .nil)
    nextId := w.nextId + 1 }

/-- Embedding of `on_pointer_click` from `main.rs`: look up the clicked
block's `Transform` (the `unwrap` is `none` when absent), add `Vec3::Y`, then
dispatch on the button: Primary spawns a block there, Secondary despawns the
clicked entity recursively, any other button does nothing. -/
def on_pointer_click (w : WorldM) (st : State) (ev : ClickEvent) : Option WorldM :=
  match findBlock ev.target w.scene with
  | none => none
  | some bd =>
      let position := bd.position.add vecY
      match ev.button with
      | .Primary => some (spawn_block w st position)
      | .Secondary => some { w with scene := despawnRecursive ev.target w.scene }
      | .Middle => some w

/-- The per-block components touched by the hover handlers: the entity's
translation and whether the `Wireframe` marker component is present
(`insert` adds it, `remove` takes it away). -/
structure BlockView where
  position : Vec3Q
  wireframe : Bool
deriving DecidableEq, Repr

/-- Embedding of `on_pointer_over` from `main.rs`:
`commands.entity(e).insert(Wireframe)`. -/
def on_pointer_over (c : BlockView) : BlockView :=
  { c with wireframe := true }

/-- Embedding of `on_pointer_out` from `main.rs`:
`commands.entity(e).remove::<Wireframe>()`. -/
def on_pointer_out (c : BlockView) : BlockView :=
  { c with wireframe := false }

/-- C9: the hover handlers are idempotent: inserting `Wireframe` on an already
highlighted block and removing it from a non-highlighted block change
nothing. -/
theorem hover_handlers_idempotent (c : BlockView) :
    on_pointer_over (on_pointer_over c) = on_pointer_over c ∧
    on_pointer_out (on_pointer_out c) = on_pointer_out c ∧
    (c.wireframe = true → on_pointer_over c = c) ∧
    (c.wireframe = false → on_pointer_out c = c) := by
  obtain ⟨p, wf⟩ := c
  refine ⟨rfl, rfl, ?_, ?_⟩ <;> intro hw <;>
    simp_all [on_pointer_over, on_pointer_out]

/-- C9 witness: the theorem at a highlighted and a plain block. -/
theorem hover_handlers_idempotent_witness :
    on_pointer_over (on_pointer_over ⟨⟨0, 0, 0⟩, true⟩) =
      on_pointer_over ⟨⟨0, 0, 0⟩, true⟩ ∧
    on_pointer_over ⟨⟨0, 0, 0⟩, true⟩ = ⟨⟨0, 0, 0⟩, true⟩ ∧
    on_pointer_out ⟨⟨0, 0, 0⟩, false⟩ = ⟨⟨0, 0, 0⟩, false⟩ :=
  ⟨(hover_handlers_idempotent ⟨⟨0, 0, 0⟩, true⟩).1,
    (hover_handlers_idempotent ⟨⟨0, 0, 0⟩, true⟩).2.2.1 rfl,
    (hover_handlers_idempotent ⟨⟨0, 0, 0⟩, false⟩).2.2.2 rfl⟩


/-- Unfolding of `forestIds` at a `cons` node. -/
theorem forestIds_cons (eid : ℕ) (b : Option BlockData)
    (children rest : SceneForest) :
    forestIds (.cons eid b children rest) =
      eid :: (forestIds children ++ forestIds rest) := rfl

/-- Unfolding of `subtreeIds` at its own root. -/
theorem subtreeIds_cons_self (eid : ℕ) (b : Option BlockData)
    (children rest : SceneForest) :
    subtreeIds eid (.cons eid b children rest) =
      (eid :: forestIds children) ++ subtreeIds eid rest := by
  simp [subtreeIds]

/-- Unfolding of `subtreeIds` at a non-target node. -/
theorem subtreeIds_cons_ne {t eid : ℕ} (hne : eid ≠ t) (b : Option BlockData)
    (children rest : SceneForest) :
    subtreeIds t (.cons eid b children rest) =
      subtreeIds t children ++ subtreeIds t rest := by
  simp [subtreeIds, hne]

/-- Unfolding of `despawnRecursive` at its own target. -/
theorem despawnRecursive_cons_self (eid : ℕ) (b : Option BlockData)
    (children rest : SceneForest) :
    despawnRecursive eid (.cons eid b children rest) =
      despawnRecursive eid rest := by
  simp [despawnRecursive]

/-- Unfolding of `despawnRecursive` at a non-target node. -/
theorem despawnRecursive_cons_ne {t eid : ℕ} (hne : eid ≠ t)
    (b : Option BlockData) (children rest : SceneForest) :
    despawnRecursive t (.cons eid b children rest) =
      .cons eid b (despawnRecursive t children) (despawnRecursive t rest) := by
  simp [despawnRecursive, hne]

/-- Every id of a subtree is an id of the forest. -/
theorem mem_of_mem_subtreeIds {t x : ℕ} {f : SceneForest}
    (h : x ∈ subtreeIds t f) : x ∈ forestIds f := by
  induction f with
  | nil => simp [subtreeIds] at h
  | cons eid b children rest ihc ihr =>
      rw [forestIds_cons, List.mem_cons, List.mem_append]
      by_cases he : eid = t
      · subst he
        rw [subtreeIds_cons_self, List.mem_append, List.mem_cons] at h
        rcases h with (h | h) | h
        · exact Or.inl h
        · exact Or.inr (Or.inl h)
        · exact Or.inr (Or.inr (ihr h))
      · rw [subtreeIds_cons_ne he, List.mem_append] at h
        rcases h with h | h
        · exact Or.inr (Or.inl (ihc h))
        · exact Or.inr (Or.inr (ihr h))

/-- Despawning an id that is absent from the forest changes nothing. -/
theorem despawnRecursive_not_mem {t : ℕ} {f : SceneForest}
    (h : t ∉ forestIds f) : despawnRecursive t f = f := by
  induction f with
  | nil => rfl
  | cons eid b children rest ihc ihr =>
      rw [forestIds_cons] at h
      simp only [List.mem_cons, List.mem_append] at h
      push_neg at h
      obtain ⟨hne, hc, hr⟩ := h
      rw [despawnRecursive_cons_ne (Ne.symm hne), ihc hc, ihr hr]

/-- An id that is absent from the forest has an empty subtree. -/
theorem subtreeIds_not_mem {t : ℕ} {f : SceneForest}
    (h : t ∉ forestIds f) : subtreeIds t f = [] := by
  induction f with
  | nil => rfl
  | cons eid b children rest ihc ihr =>
      rw [forestIds_cons] at h
      simp only [List.mem_cons, List.mem_append] at h
      push_neg at h
      obtain ⟨hne, hc, hr⟩ := h
      rw [subtreeIds_cons_ne (Ne.symm hne), ihc hc, ihr hr]
      rfl

/-- A successful `findBlock` lookup means its target is an id of the forest. -/
theorem mem_forestIds_of_findBlock {t : ℕ} {f : SceneForest} {bd : BlockData}
    (h : findBlock t f = some bd) : t ∈ forestIds f := by
  induction f generalizing bd with
  | nil => simp [findBlock] at h
  | cons eid b children rest ihc ihr =>
      rw [forestIds_cons, List.mem_cons, List.mem_append]
      by_cases he : eid = t
      · exact Or.inl he.symm
      · rw [findBlock, if_neg he] at h
        cases hc : findBlock t children with
        | some bd2 => exact Or.inr (Or.inl (ihc hc))
        | none =>
            rw [hc] at h
            exact Or.inr (Or.inr (ihr h))

/-- An id present in the forest belongs to its own subtree. -/
theorem mem_subtreeIds_self {t : ℕ} {f : SceneForest}
    (h : t ∈ forestIds f) : t ∈ subtreeIds t f := by
  induction f with
  | nil => simp [forestIds] at h
  | cons eid b children rest ihc ihr =>
      by_cases he : eid = t
      · subst he
        rw [subtreeIds_cons_self]
        exact List.mem_append.mpr (Or.inl (List.mem_cons_self eid _))
      · rw [forestIds_cons, List.mem_cons, List.mem_append] at h
        rw [subtreeIds_cons_ne he, List.mem_append]
        rcases h with h | h | h
        · exact absurd h.symm he
        · exact Or.inl (ihc h)
        · exact Or.inr (ihr h)

/-- On a duplicate-free forest, `despawn_recursive` deletes exactly the
subtree of its target: an id survives iff it was present and not in the
target's subtree. -/
theorem mem_despawnRecursive_iff {t x : ℕ} {f : SceneForest}
    (h : (forestIds f).Nodup) :
    x ∈ forestIds (despawnRecursive t f) ↔
      x ∈ forestIds f ∧ x ∉ subtreeIds t f := by
  induction f with
  | nil => simp [despawnRecursive, forestIds, subtreeIds]
  | cons eid b children rest ihc ihr =>
      rw [forestIds_cons, List.nodup_cons, List.nodup_append] at h
      obtain ⟨hnm, hc, hr, hdisj⟩ := h
      have heidc : eid ∉ forestIds children := fun hx =>
        hnm (List.mem_append.mpr (Or.inl hx))
      have heidr : eid ∉ forestIds rest := fun hx =>
        hnm (List.mem_append.mpr (Or.inr hx))
      by_cases he : eid = t
      · subst he
        rw [despawnRecursive_cons_self, despawnRecursive_not_mem heidr,
          subtreeIds_cons_self, subtreeIds_not_mem heidr, forestIds_cons]
        simp only [List.mem_cons, List.mem_append, List.append_nil]
        constructor
        · intro hx
          refine ⟨Or.inr (Or.inr hx), ?_⟩
          rintro (hx2 | hx2)
          · exact heidr (hx2 ▸ hx)
          · exact hdisj hx2 hx
        · rintro ⟨hx1 | hx1 | hx1, hx2⟩
          · exact absurd (Or.inl hx1) hx2
          · exact absurd (Or.inr hx1) hx2
          · exact hx1
      · rw [despawnRecursive_cons_ne he, subtreeIds_cons_ne he,
          forestIds_cons, forestIds_cons]
        simp only [List.mem_cons, List.mem_append, ihc hc, ihr hr]
        constructor
        · rintro (hx | ⟨hx1, hx2⟩ | ⟨hx1, hx2⟩)
          · subst hx
            refine ⟨Or.inl rfl, ?_⟩
            rintro (hs2 | hs2)
            · exact heidc (mem_of_mem_subtreeIds hs2)
            · exact heidr (mem_of_mem_subtreeIds hs2)
          · refine ⟨Or.inr (Or.inl hx1), ?_⟩
            rintro (hs2 | hs2)
            · exact hx2 hs2
            · exact hdisj hx1 (mem_of_mem_subtreeIds hs2)
          · refine ⟨Or.inr (Or.inr hx1), ?_⟩
            rintro (hs2 | hs2)
            · exact hdisj (mem_of_mem_subtreeIds hs2) hx1
            · exact hx2 hs2
        · rintro ⟨hx1 | hx1 | hx1, hx2⟩
          · exact Or.inl hx1
          · exact Or.inr (Or.inl ⟨hx1, fun hs => hx2 (Or.inl hs)⟩)
          · exact Or.inr (Or.inr ⟨hx1, fun hs => hx2 (Or.inr hs)⟩)

/-- C7: on a click delivered to an existing block instance in a
duplicate-free world: a secondary-button click removes exactly the clicked
entity together with its whole subtree (the clicked id is gone, and an id
survives iff it was present and outside the clicked subtree), while a click
with any button other than primary and secondary leaves the world completely
unchanged. -/
theorem click_secondary_destroys_other_noop (w : WorldM) (st : State)
    (ev : ClickEvent) (bd : BlockData)
    (hfind : findBlock ev.target w.scene = some bd)
    (hnd : (forestIds w.scene).Nodup) :
    (ev.button = .Secondary →
      on_pointer_click w st ev =
        some { w with scene := despawnRecursive ev.target w.scene } ∧
      ev.target ∉ forestIds (despawnRecursive ev.target w.scene) ∧
      (∀ x, x ∈ forestIds (despawnRecursive ev.target w.scene) ↔
        x ∈ forestIds w.scene ∧ x ∉ subtreeIds ev.target w.scene)) ∧
    (ev.button = .Middle → on_pointer_click w st ev = some w) := by
  constructor
  · intro hbtn
    refine ⟨by simp [on_pointer_click, hfind, hbtn], ?_, ?_⟩
    · intro hx
      have hmem := (mem_despawnRecursive_iff hnd).mp hx
      exact hmem.2 (mem_subtreeIds_self (mem_forestIds_of_findBlock hfind))
    · intro x
      exact mem_despawnRecursive_iff hnd
  · intro hbtn
    simp [on_pointer_click, hfind, hbtn]

/-- A world with block 0 (child: entity 1) and block 2, for the C7 witness. -/
def nestedWorld : WorldM :=
  { scene := .cons 0 (some ⟨⟨0, 0, 0⟩, 7, 9⟩)
      (.cons 1 none .nil .nil)
      (.cons 2 (some ⟨⟨1, 0, 0⟩, 7, 9⟩) .nil .nil)
    nextId := 3
    meshAssets := 1
    materialAssets := 1 }

/-- The published `State` resource used by the concrete click scenarios. -/
def st0 : State := ⟨7, 9⟩

/-- C7 witness: a secondary click on block 0 of `nestedWorld` despawns
entities 0 and 1 and keeps entity 2; a middle click changes nothing. -/
theorem click_secondary_destroys_other_noop_witness :
    on_pointer_click nestedWorld st0 ⟨0, .Secondary, none⟩ =
      some { nestedWorld with scene := despawnRecursive 0 nestedWorld.scene } ∧
    0 ∉ forestIds (despawnRecursive 0 nestedWorld.scene) ∧
    (1 ∈ forestIds (despawnRecursive 0 nestedWorld.scene) ↔
      1 ∈ forestIds nestedWorld.scene ∧ 1 ∉ subtreeIds 0 nestedWorld.scene) ∧
    on_pointer_click nestedWorld st0 ⟨0, .Middle, none⟩ = some nestedWorld := by
  have hs := (click_secondary_destroys_other_noop nestedWorld st0
    ⟨0, .Secondary, none⟩ ⟨⟨0, 0, 0⟩, 7, 9⟩ rfl (by decide)).1 rfl
  have hm := (click_secondary_destroys_other_noop nestedWorld st0
    ⟨0, .Middle, none⟩ ⟨⟨0, 0, 0⟩, 7, 9⟩ rfl (by decide)).2 rfl
  exact ⟨hs.1, hs.2.1, hs.2.2 1, hm⟩

/-- Ids of an appended forest are the two id lists appended. -/
theorem forestIds_forestAppend (f g : SceneForest) :
    forestIds (forestAppend f g) = forestIds f ++ forestIds g := by
  induction f with
  | nil => simp [forestAppend, forestIds]
  | cons eid b children rest ihc ihr =>
      simp [forestAppend, forestIds, ihr, List.append_assoc]

/-- C4 counterexample input: a primary click on block 0 whose hit normal is
+X, not +Y. -/
def sideClick : ClickEvent := ⟨0, .Primary, some ⟨1, 0, 0⟩⟩

/-- The single block at `(3, -10, 4)` used by the C4 scenarios. -/
def sampleBlock : BlockData := ⟨⟨3, -10, 4⟩, 7, 9⟩

/-- A world holding only `sampleBlock` as entity 0. -/
def sampleWorld : WorldM :=
  { scene := .cons 0 (some sampleBlock) .nil .nil
    nextId := 1
    meshAssets := 1
    materialAssets := 1 }

/-- C4 counterexample: on a primary click whose surface normal is +X, the
handler still places the new block at the clicked position plus `Vec3::Y` —
at `(3, -9, 4)`, which is not the clicked position offset along the event's
surface normal, `(4, -10, 4)`. The hit normal is ignored. -/
theorem click_primary_ignores_hit_normal :
    on_pointer_click sampleWorld st0 sideClick =
      some
        { scene := SceneForest.cons 0 (some sampleBlock) .nil
            (.cons 1 (some ⟨sampleBlock.position.add vecY, 7, 9⟩) .nil .nil)
          nextId := 2
          meshAssets := 1
          materialAssets := 1 } ∧
    sampleBlock.position.add vecY = ⟨3, -9, 4⟩ ∧
    sampleBlock.position.add ⟨1, 0, 0⟩ = ⟨4, -10, 4⟩ ∧
    (⟨3, -9, 4⟩ : Vec3Q) ≠ (⟨4, -10, 4⟩ : Vec3Q) := by
  refine ⟨rfl, ?_, ?_, ?_⟩
  · simp only [sampleBlock, vecY, Vec3Q.add, Vec3Q.mk.injEq]
    norm_num
  · simp only [sampleBlock, Vec3Q.add, Vec3Q.mk.injEq]
    norm_num
  · intro hc
    rw [Vec3Q.mk.injEq] at hc
    norm_num at hc

/-- C4 amended: a primary click on an existing block instance holding the
published mesh and material handles spawns exactly one new block instance at
the clicked position offset by the unit vector +Y, with the same mesh and
material handles as the clicked block, and allocates no new mesh or material
asset: the resulting world is the old one with the single new entity
appended. -/
theorem click_primary_spawns_shared_block (w : WorldM) (st : State)
    (ev : ClickEvent) (bd : BlockData)
    (hbtn : ev.button = .Primary)
    (hfind : findBlock ev.target w.scene = some bd)
    (hmesh : bd.meshHandle = st.block)
    (hmat : bd.materialHandle = st.material) :
    on_pointer_click w st ev =
      some
        { scene := forestAppend w.scene
            (.cons w.nextId
              (some ⟨bd.position.add vecY, bd.meshHandle, bd.materialHandle⟩)
              .nil .nil)
          nextId := w.nextId + 1
          meshAssets := w.meshAssets
          materialAssets := w.materialAssets } ∧
    forestIds (forestAppend w.scene
        (.cons w.nextId
          (some ⟨bd.position.add vecY, bd.meshHandle, bd.materialHandle⟩)
          .nil .nil)) =
      forestIds w.scene ++ [w.nextId] := by
  constructor
  · simp [on_pointer_click, hfind, hbtn, spawn_block, hmesh, hmat]
  · rw [forestIds_forestAppend]
    rfl

/-- C4 amended witness: a primary click with hit normal +Y on `sampleWorld`
spawns the shared-handle block at `(3, -9, 4)`. -/
theorem click_primary_spawns_shared_block_witness :
    on_pointer_click sampleWorld st0 ⟨0, .Primary, some vecY⟩ =
      some
        { scene := forestAppend sampleWorld.scene
            (.cons sampleWorld.nextId
              (some ⟨sampleBlock.position.add vecY, sampleBlock.meshHandle,
                sampleBlock.materialHandle⟩)
              .nil .nil)
          nextId := sampleWorld.nextId + 1
          meshAssets := sampleWorld.meshAssets
          materialAssets := sampleWorld.materialAssets } ∧
    sampleBlock.position.add vecY = ⟨3, -9, 4⟩ :=
  ⟨(click_primary_spawns_shared_block sampleWorld st0
      ⟨0, .Primary, some vecY⟩ sampleBlock rfl rfl rfl rfl).1,
    by simp only [sampleBlock, vecY, Vec3Q.add, Vec3Q.mk.injEq]; norm_num⟩


/-! ## Atlas finalize: the name-to-index table (`main.rs` `finalize`)

The `finalize` system iterates the loaded folder's handles in discovery
order; for each one it computes `path.file_name()` â the final path component
WITH its extension â and executes `texture_map.insert(path.to_string(), index)`
with a running index starting at 0. The map is embedded as an association
list with `HashMap`-style insert (replace if present, else append). -/

/-- Embedding of `HashMap::insert` on an association list: replace the key if present,
otherwise append. -/
def insertKV : List (String × ℕ) → String → ℕ → List (String × ℕ)
  | [], k, v => [(k, v)]
  | (k0, v0) :: rest, k, v =>
      if k0 = k then (k, v) :: rest else (k0, v0) :: insertKV rest k v

/-- Embedding of `HashMap` lookup (the `texture_map` indexing) on an association
list. -/
def lookupKV : List (String × ℕ) → String → Option ℕ
  | [], _ => none
  | (k0, v0) :: rest, k => if k0 = k then some v0 else lookupKV rest k

/-- The `texture_map`-building loop of `finalize`: insert each file name with
the running registration index, then increment the index. -/
def textureMapGo : List String → ℕ → List (String × ℕ) → List (String × ℕ)
  | [], _, m => m
  | f :: rest, i, m => textureMapGo rest (i + 1) (insertKV m f i)

/-- The name→index table `finalize` builds from the folder's file names. -/
def textureMapOf (files : List String) : List (String × ℕ) :=
  textureMapGo files 0 []

/-- Drop a trailing `.extension` from a character list (no dot: unchanged). -/
def dropExt (cs : List Char) : List Char :=
  if ('.') ∈ cs then
    (((cs.reverse).dropWhile (fun c => c != ('.'))).drop 1).reverse
  else cs

/-- The spec side of the C5 comparison: the spec says table keys are each
file's base name, the stem without extension. -/
def fileStem (s : String) : String :=
  String.mk (dropExt s.data)

/-- The three texture file names the repository ships and `finalize` looks
up. -/
def textureFiles : List String :=
  ["grass_side.png", "grass_top.png", "dirt.png"]

/-- Registration order paired with indices from `i` upward. -/
def enumFrom : ℕ → List String → List (String × ℕ)
  | _, [] => []
  | i, f :: rest => (f, i) :: enumFrom (i + 1) rest

/-- Inserting an absent key appends it. -/
theorem insertKV_not_mem {k : String} {m : List (String × ℕ)} (v : ℕ)
    (h : k ∉ m.map Prod.fst) : insertKV m k v = m ++ [(k, v)] := by
  induction m with
  | nil => rfl
  | cons p rest ih =>
      obtain ⟨k0, v0⟩ := p
      simp only [List.map_cons, List.mem_cons] at h
      push_neg at h
      rw [insertKV, if_neg (Ne.symm h.1), ih h.2, List.cons_append]

/-- The map-building loop appends the enumerated files to an accumulator
whose keys avoid the files. -/
theorem textureMapGo_eq_append (files : List String) :
    ∀ (i : ℕ) (m : List (String × ℕ)), files.Nodup →
      (∀ f ∈ files, f ∉ m.map Prod.fst) →
      textureMapGo files i m = m ++ enumFrom i files := by
  induction files with
  | nil => intro i m _ _; simp [textureMapGo, enumFrom]
  | cons f rest ih =>
      intro i m hnd hdisj
      rw [List.nodup_cons] at hnd
      rw [textureMapGo, insertKV_not_mem i (hdisj f (List.mem_cons_self f rest))]
      rw [ih (i + 1) (m ++ [(f, i)]) hnd.2 ?_]
      · simp [enumFrom]
      · intro g hg
        simp only [List.map_append, List.mem_append, List.map_cons,
          List.map_nil, List.mem_singleton]
        push_neg
        refine ⟨hdisj g (List.mem_cons_of_mem f hg), ?_⟩
        intro hgf
        exact hnd.1 (hgf ▸ hg)

/-- Looking up the `k`-th registered file in the enumeration finds index
`i + k`. -/
theorem lookupKV_enumFrom (files : List String) :
    ∀ (i k : ℕ) (hk : k < files.length), files.Nodup →
      lookupKV (enumFrom i files) (files.get ⟨k, hk⟩) = some (i + k) := by
  induction files with
  | nil => intro i k hk _; exact absurd hk (Nat.not_lt_zero k)
  | cons f rest ih =>
      intro i k hk hnd
      rw [List.nodup_cons] at hnd
      cases k with
      | zero => simp [enumFrom, lookupKV]
      | succ k2 =>
          have hk2 : k2 < rest.length := Nat.lt_of_succ_lt_succ hk
          have hne : f ≠ rest.get ⟨k2, hk2⟩ := by
            intro hf
            exact hnd.1 (hf ▸ rest.get_mem k2 hk2)
          rw [enumFrom, lookupKV]
          rw [show ((f :: rest).get ⟨k2 + 1, hk⟩) = rest.get ⟨k2, hk2⟩ from rfl]
          rw [if_neg hne, ih (i + 1) k2 hk2 hnd.2]
          congr 1
          omega

/-- C5 counterexample: the table built by `finalize` is keyed by full file
names, extension included — the spec's base-name key `grass_side` (the stem of
`grass_side.png`) is absent, while `grass_side.png` maps to 0. -/
theorem texture_map_keys_keep_extension :
    fileStem "grass_side.png" = "grass_side" ∧
    lookupKV (textureMapOf textureFiles) (fileStem "grass_side.png") = none ∧
    lookupKV (textureMapOf textureFiles) "grass_side.png" = some 0 := by
  refine ⟨by decide, by decide, by decide⟩

/-- C5 amended: the name→index table maps each texture's full file name
(extension included) to its registration-order index, assigned
deterministically from 0 in registration order; the face lookups use those
full-file-name keys. -/
theorem texture_map_registration_order (files : List String)
    (hnd : files.Nodup) (k : ℕ) (hk : k < files.length) :
    lookupKV (textureMapOf files) (files.get ⟨k, hk⟩) = some k := by
  rw [textureMapOf, textureMapGo_eq_append files 0 [] hnd (by simp)]
  rw [List.nil_append]
  have h := lookupKV_enumFrom files 0 k hk hnd
  rw [h]
  rw [Nat.zero_add]

/-- C5 amended witness: in the shipped folder, `grass_top.png` (registered
second) maps to index 1. -/
theorem texture_map_registration_order_witness :
    textureFiles.Nodup ∧ 1 < textureFiles.length ∧
    lookupKV (textureMapOf textureFiles) (textureFiles.get ⟨1, by decide⟩) =
      some 1 :=
  ⟨by decide, by decide,
    texture_map_registration_order textureFiles (by decide) 1 (by decide)⟩


/-! ## Bootstrap state machine (`main.rs`)

`GameState` has the two variants `Setup` (default) and `InGame`. The spec's
three-phase `SessionState` maps onto the schedule as: `Setup` until the
`OnEnter(GameState::Setup)` `setup` system has issued the folder load
request, `Loading` while the `loading` system polls in `GameState::Setup`,
and `Ready` once the state is `InGame`; `finalize` runs on the
`OnExit(GameState::Setup)` edge and is abstracted to a run counter. -/

/-- The `GameState` enum from `main.rs`. -/
inductive GameState : Type where
  | Setup : GameState
  | InGame : GameState
deriving DecidableEq, Repr

/-- The bootstrap-relevant app state: the bevy state value, whether `setup`
has issued the `load_folder("textures")` request, and how many times
`finalize` has run. -/
structure AppM where
  gameState : GameState
  folderRequested : Bool
  finalizeRuns : ℕ
deriving DecidableEq, Repr

/-- The app before the first schedule pass. -/
def initApp : AppM := ⟨.Setup, false, 0⟩

/-- One schedule pass, `loaded` being the `is_loaded_with_dependencies`
signal of the `AssetEvent` stream: the first `Setup` pass runs `setup`
(issue the load request); later `Setup` passes run `loading`, and when the
signal fires the state moves to `InGame`, running `finalize` on the exit
edge; in `InGame` none of these fields change. -/
def tick (loaded : Bool) (a : AppM) : AppM :=
  match a.gameState with
  | .Setup =>
      if a.folderRequested = false then { a with folderRequested := true }
      else if loaded then
        { gameState := .InGame, folderRequested := true,
          finalizeRuns := a.finalizeRuns + 1 }
      else a
  | .InGame => a

/-- The spec's `SessionState`, read off the app state. -/
inductive SessionPhase : Type where
  | SetupPhase : SessionPhase
  | LoadingPhase : SessionPhase
  | ReadyPhase : SessionPhase
deriving DecidableEq, Repr

/-- The refinement map from app state to the spec's session phase. -/
def phase (a : AppM) : SessionPhase :=
  match a.gameState with
  | .InGame => .ReadyPhase
  | .Setup => if a.folderRequested then .LoadingPhase else .SetupPhase

/-- Position of a phase along `Setup → Loading → Ready`. -/
def phaseIdx : SessionPhase → ℕ
  | .SetupPhase => 0
  | .LoadingPhase => 1
  | .ReadyPhase => 2

/-- The app after a sequence of schedule passes with the given signals. -/
def runApp (events : List Bool) : AppM :=
  events.foldl (fun a e => tick e a) initApp

/-- The bootstrap invariant: `finalize` has run exactly once in `InGame` and
never before. -/
def appInv (a : AppM) : Prop :=
  a.finalizeRuns = (if a.gameState = .InGame then 1 else 0)

/-- A schedule pass preserves the bootstrap invariant. -/
theorem appInv_tick (e : Bool) (a : AppM) (h : appInv a) : appInv (tick e a) := by
  obtain ⟨g, r, n⟩ := a
  cases g <;> cases r <;> cases e <;>
    simp_all [appInv, tick]

/-- Any run from the initial app satisfies the bootstrap invariant. -/
theorem appInv_runApp (events : List Bool) : appInv (runApp events) := by
  rw [runApp]
  have hgen : ∀ a : AppM, appInv a →
      appInv (events.foldl (fun a2 e => tick e a2) a) := by
    induction events with
    | nil => intro a h; exact h
    | cons e rest ih =>
        intro a h
        exact ih (tick e a) (appInv_tick e a h)
  exact hgen initApp (by simp [appInv, initApp])

/-- Step facts that hold at every app state satisfying the invariant:
the session phase never moves backward and never skips a phase, `Ready` is
absorbing (the whole state is unchanged), the `finalize` count is 1 exactly
in `Ready` and 0 before, and the single increment happens on the edge into
`Ready`. -/
theorem appInv_step_props (e : Bool) (a : AppM) (h : appInv a) :
    phaseIdx (phase a) ≤ phaseIdx (phase (tick e a)) ∧
    phaseIdx (phase (tick e a)) ≤ phaseIdx (phase a) + 1 ∧
    (phase a = .ReadyPhase → tick e a = a) ∧
    a.finalizeRuns = (if phase a = .ReadyPhase then 1 else 0) ∧
    (phase a ≠ .ReadyPhase → phase (tick e a) = .ReadyPhase →
      (tick e a).finalizeRuns = a.finalizeRuns + 1) := by
  obtain ⟨g, r, n⟩ := a
  cases g <;> cases r <;> cases e <;>
    simp_all [appInv, tick, phase, phaseIdx]

/-- C8: along every run of the schedule, the session phase moves only
forward along `Setup`, `Loading`, `Ready` (never backward, never skipping),
once `Ready` is reached no field changes on any further pass, and the
`finalize` sequence has executed exactly once when and only when the phase is
`Ready`, its single execution happening on the edge into `Ready`. -/
theorem bootstrap_forward_finalize_once (events : List Bool) (e : Bool) :
    phaseIdx (phase (runApp events)) ≤ phaseIdx (phase (tick e (runApp events))) ∧
    phaseIdx (phase (tick e (runApp events))) ≤ phaseIdx (phase (runApp events)) + 1 ∧
    (phase (runApp events) = .ReadyPhase → tick e (runApp events) = runApp events) ∧
    (runApp events).finalizeRuns =
      (if phase (runApp events) = .ReadyPhase then 1 else 0) ∧
    (phase (runApp events) ≠ .ReadyPhase →
      phase (tick e (runApp events)) = .ReadyPhase →
      (tick e (runApp events)).finalizeRuns = (runApp events).finalizeRuns + 1) :=
  appInv_step_props e (runApp events) (appInv_runApp events)

/-- C8 witness: after the signals `[false, true]` the session is `Ready`,
a further pass changes nothing, and `finalize` has run exactly once. -/
theorem bootstrap_forward_finalize_once_witness :
    phase (runApp [false, true]) = .ReadyPhase ∧
    tick false (runApp [false, true]) = runApp [false, true] ∧
    (runApp [false, true]).finalizeRuns = 1 := by
  have h := bootstrap_forward_finalize_once [false, true] false
  have hr : phase (runApp [false, true]) = .ReadyPhase := by decide
  refine ⟨hr, h.2.2.1 hr, ?_⟩
  have h4 := h.2.2.2.1
  rw [hr, if_pos rfl] at h4
  exact h4

end Maricraft
